import Mathlib

/-!
Verification of the semantic-version transition engine of `cargo-goosectl`.

Strings from the Rust source are modelled as `List Char` (`Str`).  Rust `u64`
arithmetic is modelled as `Nat` with explicit reduction modulo `2 ^ 64` at the
operations that can overflow (Rust release builds wrap).  Fallible Rust
functions returning `anyhow::Result` are modelled with `Except String`.
-/

deriving instance DecidableEq for Except

namespace Goosectl

/-- Strings of the Rust source, modelled as lists of characters. -/
abbrev Str := List Char

/-- The number of values of a Rust `u64`. -/
def u64Size : Nat := 2 ^ 64

/-- ASCII alphanumeric or hyphen: the characters semver allows inside
prerelease and build-metadata identifiers. -/
def isAlnumHyphen (c : Char) : Bool := c.isAlphanum || c = '-'

/-- Rust `str::split(c)`: splits at every occurrence of `c`, keeping empty
segments; always returns at least one segment. -/
def splitCh (c : Char) : Str → List Str
  | [] => [[]]
  | x :: xs =>
    if x = c then [] :: splitCh c xs
    else
      match splitCh c xs with
      | [] => [[x]]
      | h :: t => (x :: h) :: t

/-- Split a string at the first occurrence of `c`: returns the part before it
and, when `c` occurs, the part after it. -/
def splitFirst (c : Char) : Str → Str × Option Str
  | [] => ([], none)
  | x :: xs =>
    if x = c then ([], some xs)
    else
      let r := splitFirst c xs
      (x :: r.1, r.2)

/-- The decimal digit character for `d < 10`. -/
def digitChar (d : Nat) : Char := Char.ofNat (48 + d)

/-- Canonical decimal rendering of a natural number, most significant digit
first: the division loop of Rust `u64` `Display`, with explicit fuel. -/
def natToDigitsCore : Nat → Nat → Str → Str
  | 0, _, acc => acc
  | fuel + 1, n, acc =>
    if n < 10 then digitChar (n % 10) :: acc
    else natToDigitsCore fuel (n / 10) (digitChar (n % 10) :: acc)

/-- Canonical decimal rendering of a natural number (Rust `u64` `Display`). -/
def natToDigits (n : Nat) : Str := natToDigitsCore (n + 1) n []

/-- Recursive specification of the decimal rendering, for proofs. -/
def natDigits (n : Nat) : Str :=
  if _h : n < 10 then [digitChar n]
  else natDigits (n / 10) ++ [digitChar (n % 10)]
  termination_by n
  decreasing_by exact Nat.div_lt_self (by omega) (by omega)

/-- Value of a string of decimal digit characters. -/
def digitsToNat (l : Str) : Nat :=
  l.foldl (fun acc c => 10 * acc + (c.toNat - 48)) 0

/-- Rust `u64::from_str`: an optional leading `+`, then one or more ASCII
digits, value below `2 ^ 64`; anything else fails. -/
def parseU64 (s : Str) : Option Nat :=
  match s with
  | [] => none
  | c :: rest =>
    let ds := if c = '+' then rest else c :: rest
    if ds.isEmpty then none
    else if ds.all Char.isDigit then
      let n := digitsToNat ds
      if n < u64Size then some n else none
    else none

/-- The structured prerelease of `semantic_version.rs`: a human identifier and
an iteration counter (`u64`). -/
structure Prerelease where
  ident : Str
  iteration : Nat
  deriving DecidableEq, Repr

namespace Prerelease

/-- `Prerelease::parse` from `semantic_version.rs`: exactly two dot separated
components, the second parsed as a `u64`. -/
def parse (s : Str) : Except String Prerelease :=
  match splitCh '.' s with
  | [] => .error "Invalid prerelease"
  | [_] => .error "Invalid prerelease: missing counter"
  | i :: n :: rest =>
    match parseU64 n with
    | none => .error "Invalid prerelease: counter must be numeric"
    | some k =>
      if rest.isEmpty then .ok ⟨i, k⟩
      else .error "Invalid prerelease: too many components"

/-- `Prerelease::increment`: same identifier, iteration plus one (`u64`
addition, hence reduction modulo `2 ^ 64`). -/
def increment (p : Prerelease) : Prerelease :=
  ⟨p.ident, (p.iteration + 1) % u64Size⟩

/-- `Prerelease::to_semver`: serializes as `ident.iteration`.  The Rust code
passes the result through `semver::Prerelease::new(..).expect("always valid")`
and therefore PANICS when the serialized form is not accepted by the semver
prerelease grammar (`semverPreNewOk`, defined below) — e.g. for the
identifiers `"007"`, `""` or `"a b"`.  The panic is not representable in the
`Except` model, so every theorem about a code path that calls `to_semver`
carries `semverPreNewOk` hypotheses restricting it to the non-panicking
inputs. -/
def toSemverStr (p : Prerelease) : Str :=
  p.ident ++ '.' :: natToDigits p.iteration

end Prerelease

/-- The semver crate's precedence comparison on raw strings: dot separated
identifiers compared left to right, all-digit identifiers numerically (length
then bytes) and below alphanumeric ones, alphanumeric ones bytewise; a prefix
compares below a longer sequence.  An empty prerelease (absence) compares
above any non-empty one. -/
def compareStr : Str → Str → Ordering
  | [], [] => .eq
  | [], _ :: _ => .lt
  | _ :: _, [] => .gt
  | a :: as_, b :: bs =>
    (compare a.val b.val).then (compareStr as_ bs)

/-- Comparison of one semver prerelease identifier pair, per the semver
crate's `Ord for Prerelease` loop body. -/
def compareIdent (a b : Str) : Ordering :=
  match a.all Char.isDigit, b.all Char.isDigit with
  | true, true => (compare a.length b.length).then (compareStr a b)
  | true, false => .lt
  | false, true => .gt
  | false, false => compareStr a b

/-- Identifier-list comparison loop of the semver crate's `Ord for
Prerelease`. -/
def compareIdents : List Str → List Str → Ordering
  | [], [] => .eq
  | [], _ :: _ => .lt
  | _ :: _, [] => .gt
  | x :: xs, y :: ys => (compareIdent x y).then (compareIdents xs ys)

/-- `Ord for semver::Prerelease` on serialized prerelease strings. -/
def semverPreCompare (a b : Str) : Ordering :=
  if a.isEmpty then (if b.isEmpty then .eq else .gt)
  else if b.isEmpty then .lt
  else compareIdents (splitCh '.' a) (splitCh '.' b)

/-- One semver build-metadata identifier: non-empty, ASCII alphanumerics and
hyphens (leading zeros permitted). -/
def validBuildIdent (l : Str) : Bool :=
  !l.isEmpty && l.all isAlnumHyphen

/-- One semver prerelease identifier: non-empty, ASCII alphanumerics and
hyphens, and an all-digit identifier has no leading zero. -/
def validPreIdent (l : Str) : Bool :=
  !l.isEmpty && l.all isAlnumHyphen &&
    !(l.all Char.isDigit && decide (1 < l.length) && l.head? = some '0')

/-- `semver::BuildMetadata::new` acceptance: the empty string (yielding the
empty metadata) or dot separated valid build identifiers. -/
def buildMetadataNewOk (s : Str) : Bool :=
  s.isEmpty || (splitCh '.' s).all validBuildIdent

/-- `semver::Prerelease::new` acceptance: the empty string (yielding the
empty prerelease) or dot separated valid prerelease identifiers.  When this
is `false` for a serialized `Prerelease`, the Rust `to_semver` call panics
through its `expect("always valid")`. -/
def semverPreNewOk (s : Str) : Bool :=
  s.isEmpty || (splitCh '.' s).all validPreIdent

/-- The contents of `cargo_metadata::semver::Version`: numeric components are
`u64`; `pre`/`build` are the raw validated strings, empty meaning absent. -/
structure Version where
  major : Nat
  minor : Nat
  patch : Nat
  pre : Str
  build : Str
  deriving DecidableEq, Repr

/-- `ReleaseLevel` from `semantic_version.rs`. -/
inductive ReleaseLevel
  | patch
  | minor
  | major
  deriving DecidableEq, Repr

/-- `SemanticVersion` is a newtype over the semver `Version`. -/
abbrev SemanticVersion := Version

namespace Version

/-- `Display for SemanticVersion` (the semver crate's canonical rendering):
`major.minor.patch`, `-pre` when non-empty, `+build` when non-empty. -/
def render (v : Version) : Str :=
  natToDigits v.major ++ '.' :: natToDigits v.minor ++ '.' :: natToDigits v.patch
    ++ (if v.pre.isEmpty then [] else '-' :: v.pre)
    ++ (if v.build.isEmpty then [] else '+' :: v.build)

/-- `SemanticVersion::prerelease`: `None` for an empty prerelease, otherwise
re-parses the stored string, failing if it does not have the validated
two-component shape. -/
def prereleaseOpt (v : Version) : Except String (Option Prerelease) :=
  if v.pre.isEmpty then .ok none
  else
    match Prerelease.parse v.pre with
    | .ok p => .ok (some p)
    | .error _ => .error "Prerelease should have been validated."

/-- `SemanticVersion::is_prerelease`. -/
def is_prerelease (v : Version) : Bool := !v.pre.isEmpty

/-- `SemanticVersion::clear_prerelease`. -/
def clear_prerelease (v : Version) : Except String Version :=
  .ok { v with pre := [] }

/-- `SemanticVersion::build`: `None` when the stored build string is empty. -/
def buildOpt (v : Version) : Option Str :=
  if v.build.isEmpty then none else some v.build

/-- `SemanticVersion::with_build`: validates through
`semver::BuildMetadata::new` and replaces; `None` clears. -/
def with_build (v : Version) (metadata : Option Str) : Except String Version :=
  match metadata with
  | some m =>
    if buildMetadataNewOk m then .ok { v with build := m }
    else .error "metadata validated by semver"
  | none => .ok { v with build := [] }

/-- `SemanticVersion::with_prerelease`: stores the serialized form produced
by `to_semver`.  Because `to_semver` panics (see `Prerelease.toSemverStr`)
whenever `semverPreNewOk p.toSemverStr = false`, the `.ok` result modelled
here only describes the Rust behaviour on prereleases accepted by the semver
grammar; theorems about code paths reaching this call carry that
`semverPreNewOk` hypothesis. -/
def with_prerelease (v : Version) (p : Prerelease) : Except String Version :=
  .ok { v with pre := p.toSemverStr }

/-- `SemanticVersion::bump_level`: `u64` arithmetic, hence the increment is
reduced modulo `2 ^ 64`; only the numeric components are assigned. -/
def bump_level (v : Version) (level : ReleaseLevel) : Except String Version :=
  match level with
  | .major => .ok { v with major := (v.major + 1) % u64Size, minor := 0, patch := 0 }
  | .minor => .ok { v with minor := (v.minor + 1) % u64Size, patch := 0 }
  | .patch => .ok { v with patch := (v.patch + 1) % u64Size }

end Version

/-- `TryFrom<Version> for SemanticVersion`: a non-empty prerelease must parse
into the two-component shape. -/
def tryFromVersion (val : Version) : Except String SemanticVersion :=
  if val.pre.isEmpty then .ok val
  else
    match Prerelease.parse val.pre with
    | .ok _ => .ok val
    | .error e => .error e

/-- Modelled from the spec: `with_metadata` is called by `transition.rs` but
is absent from `src/`; per §4.1 it is the build replacement operation
(`with_build`): validates and replaces `build`, `None` clears it. -/
def Version.with_metadata (v : Version) (metadata : Option Str) :
    Except String Version :=
  v.with_build metadata

/-- `SemverTransition` from `transition.rs`: the five transition kinds. -/
inductive SemverTransition
  | startPrerelease (level : ReleaseLevel) (pre : Str) (metadata : Option Str)
  | incrementPrerelease (metadata : Option Str)
  | transitionPrerelease (pre : Str) (metadata : Option Str)
  | finalizeRelease (metadata : Option Str)
  | bumpRelease (level : ReleaseLevel) (metadata : Option Str)

/- The per-method-validated engine of `transition.rs`. -/
namespace TransitionRs

/-- `start_prerelease` of `transition.rs`: guarded by the prerelease check. -/
def start_prerelease (v : SemanticVersion) (level : ReleaseLevel) (pre : Str)
    (metadata : Option Str) : Except String SemanticVersion :=
  if v.is_prerelease then
    .error "You can only start a new pre-release from a release-level version (e.g., 1.2.3)."
  else do
    let v1 ← v.bump_level level
    let v2 ← v1.with_prerelease ⟨pre, 1⟩
    v2.with_metadata metadata

/-- `increment_prerelease` of `transition.rs`. -/
def increment_prerelease (v : SemanticVersion) (metadata : Option Str) :
    Except String SemanticVersion := do
  match ← v.prereleaseOpt with
  | some p => do
    let v1 ← v.with_prerelease p.increment
    v1.with_metadata metadata
  | none =>
    .error "You can only increment a pre-release from an existing pre-release version."

/-- `transition_prerelease` of `transition.rs`: proceeds only when the fresh
prerelease strictly exceeds the current one under the semver comparator. -/
def transition_prerelease (v : SemanticVersion) (pre : Str)
    (metadata : Option Str) : Except String SemanticVersion := do
  let newP : Prerelease := ⟨pre, 1⟩
  match ← v.prereleaseOpt with
  | none => .error "You can only transition from one prerelease to another prerelease."
  | some oldP =>
    if semverPreCompare newP.toSemverStr oldP.toSemverStr = .gt then do
      let v1 ← v.with_prerelease newP
      v1.with_metadata metadata
    else .error "New prerelease must be further than old prerelease."

/-- `finalize_release` of `transition.rs`. -/
def finalize_release (v : SemanticVersion) (metadata : Option Str) :
    Except String SemanticVersion :=
  if !v.is_prerelease then
    .error "Can only finalize release from a prerelease version."
  else do
    let v1 ← v.clear_prerelease
    v1.with_metadata metadata

/-- `bump_release` of `transition.rs`. -/
def bump_release (v : SemanticVersion) (level : ReleaseLevel)
    (metadata : Option Str) : Except String SemanticVersion :=
  if v.is_prerelease then
    .error "Cannot bump version line of a pre-release version."
  else do
    let v1 ← v.bump_level level
    v1.with_metadata metadata

/-- `SemanticVersion::apply` of `transition.rs`. -/
def apply (v : SemanticVersion) (t : SemverTransition) :
    Except String SemanticVersion :=
  match t with
  | .startPrerelease level pre metadata => start_prerelease v level pre metadata
  | .incrementPrerelease metadata => increment_prerelease v metadata
  | .transitionPrerelease pre metadata => transition_prerelease v pre metadata
  | .finalizeRelease metadata => finalize_release v metadata
  | .bumpRelease level metadata => bump_release v level metadata

end TransitionRs

/-- `TransitionInput` from `transition/mod.rs`: the five transition kinds. -/
inductive TransitionInput
  | startPrerelease (level : ReleaseLevel) (pre : Str) (metadata : Option Str)
  | incrementPrerelease (metadata : Option Str)
  | transitionPrerelease (pre : Str) (metadata : Option Str)
  | finalizeRelease (metadata : Option Str)
  | bumpRelease (level : ReleaseLevel) (metadata : Option Str)

/-- `State` from `transition/fsm.rs`. -/
inductive State
  | release
  | prerelease
  deriving DecidableEq, Repr

/-- `TransitionKind` from `transition/fsm.rs`. -/
inductive TransitionKind
  | startPrerelease
  | incrementPrerelease
  | transitionPrerelease
  | finalizeRelease
  | bumpRelease
  deriving DecidableEq, Repr

/-- `TransitionError` from `transition/fsm.rs`: one variant per illegal
grammar cell. -/
inductive TransitionError
  | startPrereleaseFromPrerelease
  | incrementPrereleaseFromRelease
  | finalizeReleaseFromRelease
  | bumpReleaseFromPrerelease
  | transitionPrereleaseFromRelease
  deriving DecidableEq, Repr

/-- `Display for TransitionError`: the fixed human-readable messages. -/
def TransitionError.message : TransitionError → String
  | .startPrereleaseFromPrerelease =>
    "You can only start a new pre-release from a release-level version (e.g., 1.2.3)."
  | .incrementPrereleaseFromRelease =>
    "You can only increment a pre-release from an existing pre-release version."
  | .finalizeReleaseFromRelease =>
    "Can only finalize release from a prerelease version."
  | .bumpReleaseFromPrerelease =>
    "Cannot bump version line of a pre-release version."
  | .transitionPrereleaseFromRelease =>
    "You can only transition from one prerelease to another prerelease."

/-- `TransitionInput::kind` from `transition/fsm.rs`. -/
def TransitionInput.kind : TransitionInput → TransitionKind
  | .bumpRelease _ _ => .bumpRelease
  | .finalizeRelease _ => .finalizeRelease
  | .incrementPrerelease _ => .incrementPrerelease
  | .startPrerelease _ _ _ => .startPrerelease
  | .transitionPrerelease _ _ => .transitionPrerelease

/-- `SemanticVersion::state` from `transition/fsm.rs`. -/
def Version.state (v : Version) : State :=
  if v.is_prerelease then .prerelease else .release

/-- `validate` from `transition/fsm.rs`: the 2x5 legality grammar. -/
def validate (from_ : State) (t : TransitionKind) : Except TransitionError Unit :=
  match from_, t with
  | .release, .startPrerelease
  | .prerelease, .incrementPrerelease
  | .prerelease, .transitionPrerelease
  | .prerelease, .finalizeRelease
  | .release, .bumpRelease => .ok ()
  | .prerelease, .startPrerelease => .error .startPrereleaseFromPrerelease
  | .release, .incrementPrerelease => .error .incrementPrereleaseFromRelease
  | .release, .finalizeRelease => .error .finalizeReleaseFromRelease
  | .prerelease, .bumpRelease => .error .bumpReleaseFromPrerelease
  | .release, .transitionPrerelease => .error .transitionPrereleaseFromRelease

/- The grammar-table engine of `transition/mod.rs` and `transition/fsm.rs`. -/
namespace TransitionFsm

/-- `start_prerelease` of `transition/mod.rs`: unguarded. -/
def start_prerelease (v : SemanticVersion) (level : ReleaseLevel) (pre : Str)
    (metadata : Option Str) : Except String SemanticVersion := do
  let v1 ← v.bump_level level
  let v2 ← v1.with_prerelease ⟨pre, 1⟩
  v2.with_build metadata

/-- `increment_prerelease` of `transition/mod.rs`. -/
def increment_prerelease (v : SemanticVersion) (metadata : Option Str) :
    Except String SemanticVersion := do
  match ← v.prereleaseOpt with
  | some p => do
    let v1 ← v.with_prerelease p.increment
    v1.with_build metadata
  | none =>
    .error "You can only increment a pre-release from an existing pre-release version."

/-- `transition_prerelease` of `transition/mod.rs`: the absent-prerelease
case is a Rust `expect` panic, modelled as a distinguished error. -/
def transition_prerelease (v : SemanticVersion) (pre : Str)
    (metadata : Option Str) : Except String SemanticVersion := do
  let newP : Prerelease := ⟨pre, 1⟩
  match ← v.prereleaseOpt with
  | none => .error "panic: illegal state"
  | some oldP =>
    if semverPreCompare newP.toSemverStr oldP.toSemverStr = .gt then do
      let v1 ← v.with_prerelease newP
      v1.with_build metadata
    else .error "New prerelease must be further than old prerelease."

/-- `finalize_release` of `transition/mod.rs`: unguarded. -/
def finalize_release (v : SemanticVersion) (metadata : Option Str) :
    Except String SemanticVersion := do
  let v1 ← v.clear_prerelease
  v1.with_build metadata

/-- `bump_release` of `transition/mod.rs`: unguarded. -/
def bump_release (v : SemanticVersion) (level : ReleaseLevel)
    (metadata : Option Str) : Except String SemanticVersion := do
  let v1 ← v.bump_level level
  v1.with_build metadata

/-- `SemanticVersion::apply_unchecked` of `transition/mod.rs`. -/
def apply_unchecked (v : SemanticVersion) (t : TransitionInput) :
    Except String SemanticVersion :=
  match t with
  | .startPrerelease level pre metadata => start_prerelease v level pre metadata
  | .incrementPrerelease metadata => increment_prerelease v metadata
  | .transitionPrerelease pre metadata => transition_prerelease v pre metadata
  | .finalizeRelease metadata => finalize_release v metadata
  | .bumpRelease level metadata => bump_release v level metadata

/-- `SemanticVersion::apply` of `transition/fsm.rs`: grammar check, then the
unchecked application. -/
def apply (v : SemanticVersion) (t : TransitionInput) :
    Except String SemanticVersion :=
  match validate v.state t.kind with
  | .error e => .error e.message
  | .ok _ => apply_unchecked v t

end TransitionFsm

/-- The correspondence between the two structurally identical transition
request types. -/
def SemverTransition.toInput : SemverTransition → TransitionInput
  | .startPrerelease level pre metadata => .startPrerelease level pre metadata
  | .incrementPrerelease metadata => .incrementPrerelease metadata
  | .transitionPrerelease pre metadata => .transitionPrerelease pre metadata
  | .finalizeRelease metadata => .finalizeRelease metadata
  | .bumpRelease level metadata => .bumpRelease level metadata

/-- A selected package as the bump command sees it: its name and the raw
manifest version. -/
structure Package where
  name : Str
  version : Version

/-- The per-package loop of `Command::bump` in `cli/mod.rs`: converts the
manifest version, applies the transition, and (outside dry-run mode) writes
the manifest immediately; the first failure aborts the remaining packages.
Returns the list of manifest writes performed and the error, if any. -/
def bumpWrites (t : SemverTransition) (dryRun : Bool) :
    List Package → List (Str × SemanticVersion) × Option String
  | [] => ([], none)
  | p :: rest =>
    match tryFromVersion p.version with
    | .error e => ([], some e)
    | .ok curr =>
      match TransitionRs.apply curr t with
      | .error e => ([], some e)
      | .ok next =>
        let r := bumpWrites t dryRun rest
        ((if dryRun then r.1 else (p.name, next) :: r.1), r.2)

/-- `CurrentVersionRepr` from `cli/commands/current_version.rs`: the
machine-readable record. -/
structure CurrentVersionRepr where
  version : Str
  major : Nat
  minor : Nat
  patch : Nat
  pre : Option Str
  iteration : Option Nat
  build : Option Str
  is_prerelease : Bool
  deriving DecidableEq, Repr

/-- `TryFrom<SemanticVersion> for CurrentVersionRepr`. -/
def CurrentVersionRepr.tryFrom (val : SemanticVersion) :
    Except String CurrentVersionRepr := do
  let po ← val.prereleaseOpt
  let pi : Option Str × Option Nat :=
    match po with
    | some p => (some p.ident, some p.iteration)
    | none => (none, none)
  .ok ⟨val.render, val.major, val.minor, val.patch, pi.1, pi.2,
       val.buildOpt, val.is_prerelease⟩

/-- One numeric component of the version core, per the semver crate: one or
more ASCII digits, no leading zero, value below `2 ^ 64`. -/
def parseNumericComponent (l : Str) : Option Nat :=
  if l.isEmpty then none
  else if l.all Char.isDigit then
    if 1 < l.length ∧ l.head? = some '0' then none
    else
      let n := digitsToNat l
      if n < u64Size then some n else none
  else none

/-- `Version::parse` of the semver crate, on which `SemanticVersion` parsing
is built: `MAJOR.MINOR.PATCH` with `u64` numeric components without leading
zeros, an optional `-` prerelease of dot separated valid identifiers, and an
optional `+` build of dot separated valid identifiers. -/
def parseVersion (s : Str) : Except String Version :=
  let pb := splitFirst '+' s
  let buildValid :=
    match pb.2 with
    | none => true
    | some b => (splitCh '.' b).all validBuildIdent
  let cp := splitFirst '-' pb.1
  let preValid :=
    match cp.2 with
    | none => true
    | some p => (splitCh '.' p).all validPreIdent
  if !buildValid then .error "invalid build metadata"
  else if !preValid then .error "invalid prerelease"
  else
    match (splitCh '.' cp.1).map parseNumericComponent with
    | [some a, some b, some c] =>
      .ok ⟨a, b, c, cp.2.getD [], pb.2.getD []⟩
    | _ => .error "invalid version core"

/-- Parsing an external version string into a `SemanticVersion`: the semver
parse followed by the `TryFrom` shape validation. -/
def parseSemanticVersion (s : Str) : Except String SemanticVersion :=
  match parseVersion s with
  | .ok v => tryFromVersion v
  | .error e => .error e

/-- The build-metadata argument carried by a transition request. -/
def TransitionInput.metadataOf : TransitionInput → Option Str
  | .startPrerelease _ _ m => m
  | .incrementPrerelease m => m
  | .transitionPrerelease _ m => m
  | .finalizeRelease m => m
  | .bumpRelease _ m => m

/-- Well-formedness of a `Version` as produced by parsing: numeric components
fit in a `u64`, a non-empty prerelease is made of valid semver identifiers
and has the two-component `ident.iteration` shape, and a non-empty build is
made of valid semver build identifiers. -/
def WfVersion (v : Version) : Prop :=
  v.major < u64Size ∧ v.minor < u64Size ∧ v.patch < u64Size ∧
  (v.pre = [] ∨
    ((splitCh '.' v.pre).all validPreIdent = true ∧
     (Prerelease.parse v.pre).isOk = true)) ∧
  (v.build = [] ∨ (splitCh '.' v.build).all validBuildIdent = true)

/-! ### Helper lemmas -/

theorem digitChar_isDigit {d : Nat} (h : d < 10) : (digitChar d).isDigit = true := by
  interval_cases d <;> decide

theorem digitChar_toNat {d : Nat} (h : d < 10) : (digitChar d).toNat = 48 + d := by
  interval_cases d <;> decide

theorem natToDigitsCore_eq (fuel n : Nat) (acc : Str) (hf : 0 < fuel)
    (hn : n < 10 ^ fuel) : natToDigitsCore fuel n acc = natDigits n ++ acc := by
  induction fuel generalizing n acc with
  | zero => omega
  | succ f ih =>
    by_cases h10 : n < 10
    · unfold natToDigitsCore natDigits
      rw [if_pos h10, dif_pos h10, Nat.mod_eq_of_lt h10]
      rfl
    · have hf1 : 0 < f := by
        by_contra hf0
        have : f = 0 := by omega
        subst this
        simp at hn
        omega
      have hdiv : n / 10 < 10 ^ f := by
        rw [Nat.div_lt_iff_lt_mul (by omega)]
        calc n < 10 ^ (f + 1) := hn
          _ = 10 ^ f * 10 := by ring
      unfold natToDigitsCore natDigits
      rw [if_neg h10, dif_neg h10, ih _ _ hf1 hdiv, List.append_assoc]
      rfl

theorem natToDigits_eq (n : Nat) : natToDigits n = natDigits n := by
  have h1 : n < 10 ^ n := Nat.lt_pow_self (by norm_num) n
  have h2 : (10 : Nat) ^ n ≤ 10 ^ (n + 1) :=
    Nat.pow_le_pow_right (by norm_num) (Nat.le_succ n)
  simpa using natToDigitsCore_eq (n + 1) n [] (by omega) (by omega)

theorem natDigits_ne_nil (n : Nat) : natDigits n ≠ [] := by
  unfold natDigits
  split <;> simp

theorem natToDigits_ne_nil (n : Nat) : natToDigits n ≠ [] := by
  rw [natToDigits_eq]; exact natDigits_ne_nil n

theorem natDigits_all_isDigit (n : Nat) :
    ∀ c ∈ natDigits n, c.isDigit = true := by
  induction n using Nat.strong_induction_on with
  | _ n ih =>
    unfold natDigits
    split
    · next h => intro c hc; simp at hc; subst hc; exact digitChar_isDigit h
    · next h =>
      intro c hc
      simp only [List.mem_append, List.mem_singleton] at hc
      rcases hc with hc | hc
      · exact ih (n / 10) (Nat.div_lt_self (by omega) (by omega)) c hc
      · subst hc; exact digitChar_isDigit (Nat.mod_lt _ (by omega))

theorem natToDigits_all_isDigit (n : Nat) :
    ∀ c ∈ natToDigits n, c.isDigit = true := by
  rw [natToDigits_eq]; exact natDigits_all_isDigit n

theorem natDigits_zero : natDigits 0 = ['0'] := by
  unfold natDigits
  norm_num
  decide

theorem natDigits_head_ne_zero {n : Nat} (h : n ≠ 0) :
    (natDigits n).head? ≠ some '0' := by
  induction n using Nat.strong_induction_on with
  | _ n ih =>
    unfold natDigits
    split
    · next hlt =>
      simp only [List.head?_cons]
      intro hc
      have hd : digitChar n = '0' := by injection hc
      interval_cases n
      · omega
      all_goals exact absurd hd (by decide)
    · next hlt =>
      have hne := natDigits_ne_nil (n / 10)
      rcases e : natDigits (n / 10) with _ | ⟨c, cs⟩
      · exact absurd e hne
      · simp only [e, List.cons_append, List.head?_cons]
        have := ih (n / 10) (Nat.div_lt_self (by omega) (by omega)) (by omega)
        rw [e] at this
        simpa using this

theorem digitsToNat_append_single (l : Str) (c : Char) :
    digitsToNat (l ++ [c]) = 10 * digitsToNat l + (c.toNat - 48) := by
  simp [digitsToNat, List.foldl_append]

theorem digitsToNat_natDigits (n : Nat) : digitsToNat (natDigits n) = n := by
  induction n using Nat.strong_induction_on with
  | _ n ih =>
    unfold natDigits
    split
    · next h => interval_cases n <;> decide
    · next h =>
      rw [digitsToNat_append_single,
        ih (n / 10) (Nat.div_lt_self (by omega) (by omega)),
        digitChar_toNat (Nat.mod_lt _ (by omega))]
      omega

theorem digitsToNat_natToDigits (n : Nat) : digitsToNat (natToDigits n) = n := by
  rw [natToDigits_eq]; exact digitsToNat_natDigits n

theorem natToDigits_zero : natToDigits 0 = ['0'] := by
  rw [natToDigits_eq]; exact natDigits_zero

theorem natToDigits_head_ne_zero {n : Nat} (h : n ≠ 0) :
    (natToDigits n).head? ≠ some '0' := by
  rw [natToDigits_eq]; exact natDigits_head_ne_zero h

theorem isDigit_ne_plus {c : Char} (h : c.isDigit = true) : c ≠ '+' := by
  intro hc; subst hc; exact absurd h (by decide)

theorem isDigit_ne_dot {c : Char} (h : c.isDigit = true) : c ≠ '.' := by
  intro hc; subst hc; exact absurd h (by decide)

theorem isDigit_ne_hyphen {c : Char} (h : c.isDigit = true) : c ≠ '-' := by
  intro hc; subst hc; exact absurd h (by decide)

theorem parseU64_natToDigits {n : Nat} (h : n < u64Size) :
    parseU64 (natToDigits n) = some n := by
  rcases e : natToDigits n with _ | ⟨c, cs⟩
  · exact absurd e (natToDigits_ne_nil n)
  · have hall := natToDigits_all_isDigit n
    rw [e] at hall
    have hc : c.isDigit = true := hall c (by simp)
    have hplus : c ≠ '+' := isDigit_ne_plus hc
    have hval : digitsToNat (c :: cs) = n := by
      have := digitsToNat_natToDigits n
      rwa [e] at this
    simp only [parseU64, if_neg hplus]
    rw [if_neg (by simp)]
    rw [if_pos (by simpa using hall), hval, if_pos h]

theorem parseNumericComponent_natToDigits {n : Nat} (h : n < u64Size) :
    parseNumericComponent (natToDigits n) = some n := by
  have hne := natToDigits_ne_nil n
  have hall := natToDigits_all_isDigit n
  have hval := digitsToNat_natToDigits n
  simp only [parseNumericComponent]
  rw [if_neg (by simpa using hne)]
  rw [if_pos (by simpa using hall)]
  rw [if_neg ?_, hval, if_pos h]
  rintro ⟨hlen, hhead⟩
  by_cases hz : n = 0
  · subst hz; rw [natToDigits_zero] at hlen; simp at hlen
  · exact natToDigits_head_ne_zero hz hhead

theorem splitCh_ne_nil (c : Char) (l : Str) : splitCh c l ≠ [] := by
  cases l with
  | nil => simp [splitCh]
  | cons x xs =>
    simp only [splitCh]
    split
    · simp
    · split <;> simp

theorem splitCh_not_mem {c : Char} {l : Str} (h : c ∉ l) : splitCh c l = [l] := by
  induction l with
  | nil => rfl
  | cons x xs ih =>
    simp only [List.mem_cons, not_or] at h
    simp only [splitCh, if_neg (Ne.symm h.1), ih h.2]

theorem splitCh_append {c : Char} {a : Str} (b : Str) (h : c ∉ a) :
    splitCh c (a ++ c :: b) = a :: splitCh c b := by
  induction a with
  | nil => simp [splitCh]
  | cons x xs ih =>
    simp only [List.mem_cons, not_or] at h
    have ih' := ih h.2
    rcases e : splitCh c b with _ | ⟨s, t⟩
    · exact absurd e (splitCh_ne_nil c b)
    · rw [e] at ih'
      simp [splitCh, Ne.symm h.1, ih']

theorem splitFirst_not_mem {c : Char} {l : Str} (h : c ∉ l) :
    splitFirst c l = (l, none) := by
  induction l with
  | nil => rfl
  | cons x xs ih =>
    simp only [List.mem_cons, not_or] at h
    simp [splitFirst, if_neg (Ne.symm h.1), ih h.2]

theorem splitFirst_append {c : Char} {a : Str} (b : Str) (h : c ∉ a) :
    splitFirst c (a ++ c :: b) = (a, some b) := by
  induction a with
  | nil => simp [splitFirst]
  | cons x xs ih =>
    simp only [List.mem_cons, not_or] at h
    simp [splitFirst, if_neg (Ne.symm h.1), ih h.2]

/-- Rejoining the components of `splitCh` with the separator. -/
def joinCh (c : Char) : List Str → Str
  | [] => []
  | [a] => a
  | a :: rest => a ++ c :: joinCh c rest

theorem joinCh_splitCh (c : Char) (l : Str) : joinCh c (splitCh c l) = l := by
  induction l with
  | nil => rfl
  | cons x xs ih =>
    simp only [splitCh]
    split
    · next h =>
      subst h
      have := splitCh_ne_nil x xs
      rcases e : splitCh x xs with _ | ⟨s, t⟩
      · exact absurd e this
      · rw [e] at ih; simp [joinCh, ← ih]
    · next h =>
      have := splitCh_ne_nil c xs
      rcases e : splitCh c xs with _ | ⟨s, t⟩
      · exact absurd e this
      · rw [e] at ih
        cases t with
        | nil => simp [joinCh] at ih ⊢; simp [ih]
        | cons u us => simp [joinCh] at ih ⊢; simp [ih]

theorem mem_joinCh {c : Char} {L : List Str} {x : Char} (h : x ∈ joinCh c L) :
    x = c ∨ ∃ comp ∈ L, x ∈ comp := by
  induction L with
  | nil => simp [joinCh] at h
  | cons a rest ih =>
    cases rest with
    | nil =>
      simp only [joinCh] at h
      exact Or.inr ⟨a, by simp, h⟩
    | cons b bs =>
      simp only [joinCh, List.mem_append, List.mem_cons] at h
      rcases h with h | h | h
      · exact Or.inr ⟨a, by simp, h⟩
      · exact Or.inl h
      · rcases ih h with h' | ⟨comp, hcm, hxc⟩
        · exact Or.inl h'
        · exact Or.inr ⟨comp, by simp [hcm], hxc⟩

/-- A character of a string whose `splitCh` components all satisfy a
character-level predicate is the separator or satisfies the predicate. -/
theorem mem_of_components {c : Char} {l : Str} {P : Str → Bool}
    (hall : (splitCh c l).all P = true) (Q : Char → Prop)
    (hPQ : ∀ comp, P comp = true → ∀ x ∈ comp, Q x) :
    ∀ x ∈ l, x = c ∨ Q x := by
  intro x hx
  have hx' : x ∈ joinCh c (splitCh c l) := by rw [joinCh_splitCh]; exact hx
  rcases mem_joinCh hx' with h | ⟨comp, hcm, hxc⟩
  · exact Or.inl h
  · simp only [List.all_eq_true] at hall
    exact Or.inr (hPQ comp (hall comp hcm) x hxc)

theorem except_bind_ok {α β : Type} {e : Except String α} {f : α → Except String β}
    {b : β} : (e >>= f) = .ok b ↔ ∃ a, e = .ok a ∧ f a = .ok b := by
  cases e <;> simp [Bind.bind, Except.bind]

@[simp] theorem except_isOk_ok {ε α : Type} (a : α) :
    (Except.ok a : Except ε α).isOk = true := rfl

@[simp] theorem except_isOk_error {ε α : Type} (e : ε) :
    (Except.error e : Except ε α).isOk = false := rfl

/-! ### Claim theorems -/

/-- Claim C1: the legality grammar of `validate` is total over the 2x5 matrix:
`StartPrerelease` and `BumpRelease` pass exactly from the `Release` state, the
other three kinds exactly from the `Prerelease` state; each of the five
illegal cells yields its own error variant, the five error messages are
pairwise distinct, and `apply` surfaces the validation error's message. -/
theorem claim1_grammar_totality :
    (∀ (s : State) (k : TransitionKind),
      validate s k = .ok () ↔
        ((s = State.release ∧
            (k = TransitionKind.startPrerelease ∨ k = TransitionKind.bumpRelease)) ∨
         (s = State.prerelease ∧
            (k = TransitionKind.incrementPrerelease ∨
             k = TransitionKind.transitionPrerelease ∨
             k = TransitionKind.finalizeRelease)))) ∧
    validate .prerelease .startPrerelease = .error .startPrereleaseFromPrerelease ∧
    validate .release .incrementPrerelease = .error .incrementPrereleaseFromRelease ∧
    validate .release .finalizeRelease = .error .finalizeReleaseFromRelease ∧
    validate .prerelease .bumpRelease = .error .bumpReleaseFromPrerelease ∧
    validate .release .transitionPrerelease = .error .transitionPrereleaseFromRelease ∧
    List.Pairwise (· ≠ ·)
      ([TransitionError.startPrereleaseFromPrerelease,
        TransitionError.incrementPrereleaseFromRelease,
        TransitionError.finalizeReleaseFromRelease,
        TransitionError.bumpReleaseFromPrerelease,
        TransitionError.transitionPrereleaseFromRelease].map TransitionError.message) ∧
    (∀ (v : SemanticVersion) (t : TransitionInput) (e : TransitionError),
      validate v.state t.kind = .error e →
      TransitionFsm.apply v t = .error e.message) := by
  refine ⟨?_, rfl, rfl, rfl, rfl, rfl, by decide, ?_⟩
  · intro s k
    cases s <;> cases k <;> simp [validate]
  · intro v t e h
    simp [TransitionFsm.apply, h]

/-- Claim C1 witness: a release version refused a `FinalizeRelease` request
with the corresponding fixed message. -/
theorem claim1_grammar_totality_witness :
    TransitionFsm.apply ⟨1, 2, 3, [], []⟩ (.finalizeRelease none) =
      .error TransitionError.finalizeReleaseFromRelease.message :=
  claim1_grammar_totality.2.2.2.2.2.2.2 ⟨1, 2, 3, [], []⟩ (.finalizeRelease none)
    .finalizeReleaseFromRelease (by decide)

/-- Claim C2 counterexample: `bump_level` does not clear prerelease or build
metadata: bumping `1.2.3-alpha.1+b` at `Minor` yields `1.3.0-alpha.1+b`, whose
prerelease and build are both still present. -/
theorem claim2_counterexample :
    Version.bump_level ⟨1, 2, 3, "alpha.1".data, "b".data⟩ .minor =
      .ok ⟨1, 3, 0, "alpha.1".data, "b".data⟩ ∧
    ("alpha.1".data : Str) ≠ [] ∧ ("b".data : Str) ≠ [] := by decide

/-- Claim C2 amended: `bump_level` performs exactly the numeric change
(`Major` to `(major+1, 0, 0)`, `Minor` to `(major, minor+1, 0)`, `Patch` to
`(major, minor, patch+1)`, each increment modulo `2 ^ 64`) and leaves the
prerelease and the build metadata untouched. -/
theorem claim2_bump_level_amended :
    ∀ v : Version,
      Version.bump_level v .major =
        .ok ⟨(v.major + 1) % u64Size, 0, 0, v.pre, v.build⟩ ∧
      Version.bump_level v .minor =
        .ok ⟨v.major, (v.minor + 1) % u64Size, 0, v.pre, v.build⟩ ∧
      Version.bump_level v .patch =
        .ok ⟨v.major, v.minor, (v.patch + 1) % u64Size, v.pre, v.build⟩ :=
  fun _ => ⟨rfl, rfl, rfl⟩

/-- Claim C4 counterexample: at `u64::MAX` the incremented component silently
wraps to zero and the call still succeeds; no overflow error is returned. -/
theorem claim4_counterexample :
    Version.bump_level ⟨u64Size - 1, 0, 0, [], []⟩ .major = .ok ⟨0, 0, 0, [], []⟩ ∧
    Prerelease.increment ⟨"a".data, u64Size - 1⟩ = ⟨"a".data, 0⟩ := by decide

/-- Claim C4 amended: incrementing a numeric component (or the prerelease
iteration counter) that sits at `u64::MAX` succeeds and wraps the component
to zero modulo `2 ^ 64` (Rust release-build semantics); no explicit overflow
error is produced. -/
theorem claim4_overflow_amended :
    ∀ (v : Version) (p : Prerelease),
      (v.major = u64Size - 1 →
        Version.bump_level v .major = .ok ⟨0, 0, 0, v.pre, v.build⟩) ∧
      (v.minor = u64Size - 1 →
        Version.bump_level v .minor = .ok ⟨v.major, 0, 0, v.pre, v.build⟩) ∧
      (v.patch = u64Size - 1 →
        Version.bump_level v .patch = .ok ⟨v.major, v.minor, 0, v.pre, v.build⟩) ∧
      (p.iteration = u64Size - 1 → p.increment = ⟨p.ident, 0⟩) := by
  intro v p
  have hwrap : (u64Size - 1 + 1) % u64Size = 0 := by decide
  refine ⟨?_, ?_, ?_, ?_⟩ <;> intro h <;>
    simp [Version.bump_level, Prerelease.increment, h, hwrap]

/-- Claim C4 witness: concrete wrap at `u64::MAX` for the major component and
the iteration counter. -/
theorem claim4_overflow_amended_witness :
    Version.bump_level ⟨u64Size - 1, 5, 5, "rc.2".data, []⟩ .major =
      .ok ⟨0, 0, 0, "rc.2".data, []⟩ ∧
    Prerelease.increment ⟨"rc".data, u64Size - 1⟩ = ⟨"rc".data, 0⟩ :=
  ⟨(claim4_overflow_amended ⟨u64Size - 1, 5, 5, "rc.2".data, []⟩
      ⟨"rc".data, u64Size - 1⟩).1 rfl,
   (claim4_overflow_amended ⟨u64Size - 1, 5, 5, "rc.2".data, []⟩
      ⟨"rc".data, u64Size - 1⟩).2.2.2 rfl⟩

/-- Claim C7: `Prerelease::parse` succeeds exactly on strings splitting into
two dot separated components whose second parses as a `u64`; and constructing
a `SemanticVersion` from a version with a non-empty prerelease violating that
shape is rejected. -/
theorem claim7_prerelease_shape :
    (∀ s : Str,
      (Prerelease.parse s).isOk = true ↔
        ∃ i n, splitCh '.' s = [i, n] ∧ (parseU64 n).isSome = true) ∧
    (∀ val : Version, val.pre ≠ [] →
      (Prerelease.parse val.pre).isOk = false →
      (tryFromVersion val).isOk = false) := by
  constructor
  · intro s
    rcases e : splitCh '.' s with _ | ⟨i, rest⟩
    · simp [Prerelease.parse, e]
    · rcases rest with _ | ⟨n, rest2⟩
      · simp [Prerelease.parse, e]
      · rcases hp : parseU64 n with _ | k
        · simp [Prerelease.parse, e, hp]
        · rcases rest2 with _ | ⟨x, xs⟩
          · simp [Prerelease.parse, e, hp]
            refine ⟨i, n, ?_, ?_⟩ <;> simp [hp]
          · simp [Prerelease.parse, e, hp]
  · intro val hne hbad
    rcases hpre : val.pre with _ | ⟨x, xs⟩
    · exact absurd hpre hne
    · rw [hpre] at hbad
      unfold tryFromVersion
      rw [hpre]
      rcases e : Prerelease.parse (x :: xs) with err | p
      · simp [e]
      · rw [e] at hbad
        simp at hbad

/-- Claim C7 witness: `beta.1` parses; a version carrying the shapeless
prerelease `beta` is rejected at construction. -/
theorem claim7_prerelease_shape_witness :
    (Prerelease.parse "beta.1".data).isOk = true ∧
    (tryFromVersion ⟨1, 2, 3, "beta".data, []⟩).isOk = false :=
  ⟨(claim7_prerelease_shape.1 "beta.1".data).mpr
      ⟨"beta".data, "1".data, by decide, by decide⟩,
   claim7_prerelease_shape.2 ⟨1, 2, 3, "beta".data, []⟩ (by decide) (by decide)⟩

/-- Claim C9: the machine-readable record carries the canonical rendering, the
numeric components, the prerelease identifier and iteration exactly when the
version is in the prerelease state, the build exactly when present, and the
prerelease flag. -/
theorem claim9_current_version_repr :
    ∀ (v : SemanticVersion) (po : Option Prerelease),
      v.prereleaseOpt = .ok po →
      CurrentVersionRepr.tryFrom v =
        .ok ⟨v.render, v.major, v.minor, v.patch,
             po.map Prerelease.ident, po.map Prerelease.iteration,
             v.buildOpt, v.is_prerelease⟩ ∧
      po.isSome = v.is_prerelease ∧
      v.buildOpt.isSome = !v.build.isEmpty := by
  intro v po h
  refine ⟨?_, ?_, ?_⟩
  · cases po with
    | none => simp [CurrentVersionRepr.tryFrom, h, Bind.bind, Except.bind]
    | some p => simp [CurrentVersionRepr.tryFrom, h, Bind.bind, Except.bind]
  · unfold Version.prereleaseOpt at h
    by_cases he : v.pre.isEmpty
    · rw [if_pos he] at h
      injection h with h
      simp [← h, Version.is_prerelease, he]
    · rw [if_neg he] at h
      rcases e : Prerelease.parse v.pre with err | p <;> rw [e] at h
      · exact absurd h (by simp)
      · injection h with h
        simp only [Bool.not_eq_true] at he
        simp [← h, Version.is_prerelease, he]
  · unfold Version.buildOpt
    by_cases hb : v.build.isEmpty
    · simp [hb]
    · simp [hb]

/-- Claim C9 witness: the record of `1.2.3-beta.7+m-1`. -/
theorem claim9_current_version_repr_witness :
    CurrentVersionRepr.tryFrom ⟨1, 2, 3, "beta.7".data, "m-1".data⟩ =
      .ok ⟨Version.render ⟨1, 2, 3, "beta.7".data, "m-1".data⟩, 1, 2, 3,
           some "beta".data, some 7, some "m-1".data, true⟩ :=
  (claim9_current_version_repr ⟨1, 2, 3, "beta.7".data, "m-1".data⟩
    (some ⟨"beta".data, 7⟩) (by decide)).1

theorem with_build_ok {v r : Version} {m : Option Str}
    (h : v.with_build m = .ok r) : r.build = m.getD [] := by
  cases m with
  | none =>
    simp only [Version.with_build] at h
    injection h with h
    rw [← h]
    rfl
  | some s =>
    simp only [Version.with_build] at h
    by_cases hv : buildMetadataNewOk s
    · rw [if_pos hv] at h
      injection h with h
      rw [← h]
      rfl
    · rw [if_neg hv] at h
      exact absurd h (by simp)

theorem with_build_invalid {v : Version} {m : Str}
    (h : buildMetadataNewOk m = false) :
    (v.with_build (some m)).isOk = false := by
  simp [Version.with_build, h]

/-- Every successful unchecked application ends by replacing the build
metadata with the transition's build argument through `with_build`. -/
theorem apply_unchecked_build {v r : Version} {t : TransitionInput}
    (h : TransitionFsm.apply_unchecked v t = .ok r) :
    ∃ w : Version, w.with_build t.metadataOf = .ok r := by
  cases t with
  | startPrerelease level pre metadata =>
    simp only [TransitionFsm.apply_unchecked, TransitionFsm.start_prerelease] at h
    rcases except_bind_ok.mp h with ⟨a, _, h2⟩
    rcases except_bind_ok.mp h2 with ⟨b, _, h3⟩
    exact ⟨b, h3⟩
  | incrementPrerelease metadata =>
    simp only [TransitionFsm.apply_unchecked, TransitionFsm.increment_prerelease] at h
    rcases except_bind_ok.mp h with ⟨po, _, h2⟩
    cases po with
    | none => simp at h2
    | some p =>
      rcases except_bind_ok.mp h2 with ⟨b, _, h3⟩
      exact ⟨b, h3⟩
  | transitionPrerelease pre metadata =>
    simp only [TransitionFsm.apply_unchecked, TransitionFsm.transition_prerelease] at h
    rcases except_bind_ok.mp h with ⟨po, _, h2⟩
    cases po with
    | none => simp at h2
    | some oldP =>
      have h2' :
          (if semverPreCompare (Prerelease.toSemverStr ⟨pre, 1⟩)
              oldP.toSemverStr = .gt then do
            let v1 ← v.with_prerelease ⟨pre, 1⟩
            v1.with_build metadata
          else (.error "New prerelease must be further than old prerelease." :
            Except String SemanticVersion)) = .ok r := h2
      by_cases hc :
          semverPreCompare (Prerelease.toSemverStr ⟨pre, 1⟩) oldP.toSemverStr = .gt
      · rw [if_pos hc] at h2'
        rcases except_bind_ok.mp h2' with ⟨b, _, h3⟩
        exact ⟨b, h3⟩
      · rw [if_neg hc] at h2'
        simp at h2'
  | finalizeRelease metadata =>
    simp only [TransitionFsm.apply_unchecked, TransitionFsm.finalize_release] at h
    rcases except_bind_ok.mp h with ⟨b, _, h3⟩
    exact ⟨b, h3⟩
  | bumpRelease level metadata =>
    simp only [TransitionFsm.apply_unchecked, TransitionFsm.bump_release] at h
    rcases except_bind_ok.mp h with ⟨b, _, h3⟩
    exact ⟨b, h3⟩

theorem apply_build {v r : Version} {t : TransitionInput}
    (h : TransitionFsm.apply v t = .ok r) :
    ∃ w : Version, w.with_build t.metadataOf = .ok r := by
  unfold TransitionFsm.apply at h
  rcases hval : validate v.state t.kind with err | u
  · rw [hval] at h
    simp at h
  · rw [hval] at h
    exact apply_unchecked_build h

theorem parse_toSemverStr {p : Prerelease} (hdot : '.' ∉ p.ident)
    (hit : p.iteration < u64Size) :
    Prerelease.parse p.toSemverStr = .ok p := by
  have hnodot : '.' ∉ natToDigits p.iteration := by
    intro hc
    exact isDigit_ne_dot (natToDigits_all_isDigit _ _ hc) rfl
  have hsplit : splitCh '.' p.toSemverStr = [p.ident, natToDigits p.iteration] := by
    unfold Prerelease.toSemverStr
    rw [splitCh_append _ hdot, splitCh_not_mem hnodot]
  unfold Prerelease.parse
  rw [hsplit]
  simp [parseU64_natToDigits hit]

theorem toSemverStr_ne_nil (p : Prerelease) : p.toSemverStr ≠ [] := by
  unfold Prerelease.toSemverStr
  simp

theorem state_of_pre_nil {v : Version} (h : v.pre = []) :
    v.state = State.release := by
  unfold Version.state Version.is_prerelease
  rw [h]
  rfl

theorem state_of_pre_ne {v : Version} (h : v.pre ≠ []) :
    v.state = State.prerelease := by
  have hE : v.pre.isEmpty = false := by
    cases hv : v.pre
    · exact absurd hv h
    · rfl
  unfold Version.state Version.is_prerelease
  rw [hE]
  rfl

theorem prereleaseOpt_of_toSemverStr {v : Version} {p : Prerelease}
    (hpre : v.pre = p.toSemverStr) (hdot : '.' ∉ p.ident)
    (hit : p.iteration < u64Size) : v.prereleaseOpt = .ok (some p) := by
  have hne : v.pre ≠ [] := by
    rw [hpre]; exact toSemverStr_ne_nil p
  have hF : v.pre.isEmpty = false := by
    cases hv : v.pre
    · exact absurd hv hne
    · rfl
  unfold Version.prereleaseOpt
  rw [if_neg (by simp [hF]), hpre, parse_toSemverStr hdot hit]

/-- Claim C8 counterexample: a transition carrying grammar-violating build
metadata from an illegal starting state fails with the legality error, not
the build-validation error, so `fails with a validation error` does not hold
of every transition carrying invalid metadata. -/
theorem claim8_counterexample :
    TransitionFsm.apply ⟨1, 2, 3, [], []⟩
        (.incrementPrerelease (some "no spaces".data)) =
      .error "You can only increment a pre-release from an existing pre-release version." ∧
    buildMetadataNewOk "no spaces".data = false ∧
    ("You can only increment a pre-release from an existing pre-release version." :
      String) ≠ "metadata validated by semver" := by decide

/-- Claim C8 amended: a succeeding transition stores exactly the transition's
build argument (`Some m` stores `m`, replacing any previous value; `None`
stores the empty, absent metadata).  A transition carrying build metadata
rejected by the semver validator never produces a version, but the reported
failure is the build-validation error only when every earlier check passes:
an illegal (state, kind) pair reports its legality error instead, and for the
prerelease-reading kinds the statement assumes the stored prerelease's
validated shape (and, for `TransitionPrerelease`, an advancing target), with
`semverPreNewOk` hypotheses excluding the inputs on which the Rust
`to_semver` panics. -/
theorem claim8_build_replacement_amended :
    (∀ (v : SemanticVersion) (t : TransitionInput) (r : SemanticVersion),
      TransitionFsm.apply v t = .ok r → r.build = t.metadataOf.getD []) ∧
    (∀ (v : SemanticVersion) (t : TransitionInput) (m : Str),
      t.metadataOf = some m → buildMetadataNewOk m = false →
      (TransitionFsm.apply v t).isOk = false) ∧
    (∀ (v : SemanticVersion) (t : TransitionInput) (m : Str) (e : TransitionError),
      t.metadataOf = some m → buildMetadataNewOk m = false →
      validate v.state t.kind = .error e →
      TransitionFsm.apply v t = .error e.message) ∧
    (∀ (v : SemanticVersion) (level : ReleaseLevel) (pre : Str) (m : Str),
      buildMetadataNewOk m = false → v.pre = [] →
      semverPreNewOk (Prerelease.toSemverStr ⟨pre, 1⟩) = true →
      TransitionFsm.apply v (.startPrerelease level pre (some m)) =
        .error "metadata validated by semver") ∧
    (∀ (v : SemanticVersion) (level : ReleaseLevel) (m : Str),
      buildMetadataNewOk m = false → v.pre = [] →
      TransitionFsm.apply v (.bumpRelease level (some m)) =
        .error "metadata validated by semver") ∧
    (∀ (v : SemanticVersion) (m : Str),
      buildMetadataNewOk m = false → v.pre ≠ [] →
      TransitionFsm.apply v (.finalizeRelease (some m)) =
        .error "metadata validated by semver") ∧
    (∀ (v : SemanticVersion) (p : Prerelease) (m : Str),
      buildMetadataNewOk m = false → v.pre = p.toSemverStr →
      '.' ∉ p.ident → p.iteration < u64Size →
      semverPreNewOk (Prerelease.toSemverStr p.increment) = true →
      TransitionFsm.apply v (.incrementPrerelease (some m)) =
        .error "metadata validated by semver") ∧
    (∀ (v : SemanticVersion) (p : Prerelease) (pre : Str) (m : Str),
      buildMetadataNewOk m = false → v.pre = p.toSemverStr →
      '.' ∉ p.ident → p.iteration < u64Size →
      semverPreNewOk (Prerelease.toSemverStr ⟨pre, 1⟩) = true →
      semverPreNewOk p.toSemverStr = true →
      semverPreCompare (Prerelease.toSemverStr ⟨pre, 1⟩) p.toSemverStr = .gt →
      TransitionFsm.apply v (.transitionPrerelease pre (some m)) =
        .error "metadata validated by semver") := by
  refine ⟨?_, ?_, ?_, ?_, ?_, ?_, ?_, ?_⟩
  · intro v t r h
    obtain ⟨w, hw⟩ := apply_build h
    exact with_build_ok hw
  · intro v t m hm hbad
    rcases e : TransitionFsm.apply v t with err | r
    · simp
    · exfalso
      obtain ⟨w, hw⟩ := apply_build e
      rw [hm] at hw
      have hinv := with_build_invalid (v := w) hbad
      rw [hw] at hinv
      simp at hinv
  · intro v t m e _hm _hbad hval
    simp [TransitionFsm.apply, hval]
  · intro v level pre m hbad hpre _hok
    have hstate := state_of_pre_nil hpre
    cases level <;>
      simp [TransitionFsm.apply, hstate, TransitionInput.kind, validate,
        TransitionFsm.apply_unchecked, TransitionFsm.start_prerelease,
        Version.bump_level, Version.with_prerelease, Version.with_build,
        Bind.bind, Except.bind, hbad]
  · intro v level m hbad hpre
    have hstate := state_of_pre_nil hpre
    cases level <;>
      simp [TransitionFsm.apply, hstate, TransitionInput.kind, validate,
        TransitionFsm.apply_unchecked, TransitionFsm.bump_release,
        Version.bump_level, Version.with_build, Bind.bind, Except.bind, hbad]
  · intro v m hbad hne
    have hstate := state_of_pre_ne hne
    simp [TransitionFsm.apply, hstate, TransitionInput.kind, validate,
      TransitionFsm.apply_unchecked, TransitionFsm.finalize_release,
      Version.clear_prerelease, Version.with_build, Bind.bind, Except.bind, hbad]
  · intro v p m hbad hpre hdot hit _hok
    have hne : v.pre ≠ [] := by rw [hpre]; exact toSemverStr_ne_nil p
    have hstate := state_of_pre_ne hne
    have hopt := prereleaseOpt_of_toSemverStr hpre hdot hit
    simp [TransitionFsm.apply, hstate, TransitionInput.kind, validate,
      TransitionFsm.apply_unchecked, TransitionFsm.increment_prerelease, hopt,
      Version.with_prerelease, Version.with_build, Bind.bind, Except.bind, hbad]
  · intro v p pre m hbad hpre hdot hit _hnewOk _holdOk hgt
    have hne : v.pre ≠ [] := by rw [hpre]; exact toSemverStr_ne_nil p
    have hstate := state_of_pre_ne hne
    have hopt := prereleaseOpt_of_toSemverStr hpre hdot hit
    simp [TransitionFsm.apply, hstate, TransitionInput.kind, validate,
      TransitionFsm.apply_unchecked, TransitionFsm.transition_prerelease, hopt,
      Version.with_prerelease, Version.with_build, Bind.bind, Except.bind,
      hgt, hbad]

/-- Claim C8 witness: a successful finalize stores exactly the valid build
argument, and finalizing `1.2.3-rc.1+old` with grammar-violating metadata
fails with the build-validation error itself. -/
theorem claim8_build_replacement_amended_witness :
    (Version.mk 1 2 3 [] "new".data).build =
      ((TransitionInput.finalizeRelease (some "new".data)).metadataOf).getD [] ∧
    TransitionFsm.apply ⟨1, 2, 3, "rc.1".data, "old".data⟩
        (.finalizeRelease (some "no spaces".data)) =
      .error "metadata validated by semver" :=
  ⟨claim8_build_replacement_amended.1 ⟨1, 2, 3, "rc.1".data, "old".data⟩
      (.finalizeRelease (some "new".data)) ⟨1, 2, 3, [], "new".data⟩ (by decide),
   claim8_build_replacement_amended.2.2.2.2.2.1 ⟨1, 2, 3, "rc.1".data, "old".data⟩
      "no spaces".data (by decide) (by decide)⟩

/-- Claim C10: the per-method-validated engine of `transition.rs` and the
grammar-table engine of `transition/fsm.rs` agree on every version and every
transition request: they produce the same successful result, or both fail. -/
theorem claim10_engines_equivalent :
    ∀ (v : SemanticVersion) (t : SemverTransition) (r : SemanticVersion),
      TransitionRs.apply v t = .ok r ↔ TransitionFsm.apply v t.toInput = .ok r := by
  intro v t r
  by_cases he : v.pre.isEmpty
  · cases t <;>
      simp [TransitionRs.apply, TransitionFsm.apply, SemverTransition.toInput,
        TransitionInput.kind, Version.state, Version.is_prerelease, validate,
        TransitionFsm.apply_unchecked, TransitionRs.start_prerelease,
        TransitionFsm.start_prerelease, TransitionRs.increment_prerelease,
        TransitionFsm.increment_prerelease, TransitionRs.transition_prerelease,
        TransitionFsm.transition_prerelease, TransitionRs.finalize_release,
        TransitionFsm.finalize_release, TransitionRs.bump_release,
        TransitionFsm.bump_release, Version.with_metadata, Version.prereleaseOpt,
        Version.with_prerelease, Version.clear_prerelease, he,
        Bind.bind, Except.bind]
  · rcases e : Prerelease.parse v.pre with err | p <;>
      cases t <;>
        simp [TransitionRs.apply, TransitionFsm.apply, SemverTransition.toInput,
          TransitionInput.kind, Version.state, Version.is_prerelease, validate,
          TransitionFsm.apply_unchecked, TransitionRs.start_prerelease,
          TransitionFsm.start_prerelease, TransitionRs.increment_prerelease,
          TransitionFsm.increment_prerelease, TransitionRs.transition_prerelease,
          TransitionFsm.transition_prerelease, TransitionRs.finalize_release,
          TransitionFsm.finalize_release, TransitionRs.bump_release,
          TransitionFsm.bump_release, Version.with_metadata, Version.prereleaseOpt,
          Version.with_prerelease, Version.clear_prerelease, he, e,
          Bind.bind, Except.bind]

/-- Claim C6 counterexample: bumping a batch of two packages where only the
second one's transition fails still writes the first package's manifest: the
write list is non-empty although an error is reported. -/
theorem claim6_counterexample :
    (bumpWrites (.bumpRelease .major none) false
      [⟨"a".data, ⟨1, 0, 0, [], []⟩⟩,
       ⟨"b".data, ⟨1, 0, 0, "beta.1".data, []⟩⟩]).2.isSome = true ∧
    (bumpWrites (.bumpRelease .major none) false
      [⟨"a".data, ⟨1, 0, 0, [], []⟩⟩,
       ⟨"b".data, ⟨1, 0, 0, "beta.1".data, []⟩⟩]).1 =
      [("a".data, ⟨2, 0, 0, [], []⟩)] := by decide

/-- The computed next version of one package under the bump command. -/
def nextVersion (t : SemverTransition) (p : Package) :
    Except String SemanticVersion :=
  match tryFromVersion p.version with
  | .ok c => TransitionRs.apply c t
  | .error e => .error e

/-- The packages preceding the first failure, paired with their computed
versions: the manifests the bump command has written when it stops. -/
def writtenBeforeFailure (t : SemverTransition) :
    List Package → List (Str × SemanticVersion)
  | [] => []
  | p :: rest =>
    match nextVersion t p with
    | .ok n => (p.name, n) :: writtenBeforeFailure t rest
    | .error _ => []

/-- The first failing package's error, if any. -/
def firstFailure (t : SemverTransition) : List Package → Option String
  | [] => none
  | p :: rest =>
    match nextVersion t p with
    | .ok _ => firstFailure t rest
    | .error e => some e

/-- Claim C6 amended: the bump command interleaves compute and write in a
single pass over the batch: each package's manifest is written immediately
after its own transition succeeds, and the first failure aborts the remaining
packages, so exactly the packages before the first failure are written (and
in dry-run mode nothing is written). -/
theorem claim6_bump_writes_amended :
    ∀ (t : SemverTransition) (pkgs : List Package),
      bumpWrites t false pkgs =
        (writtenBeforeFailure t pkgs, firstFailure t pkgs) ∧
      (bumpWrites t true pkgs).1 = [] := by
  intro t pkgs
  constructor
  · induction pkgs with
    | nil => rfl
    | cons p rest ih =>
      rcases e : tryFromVersion p.version with err | c
      · simp [bumpWrites, writtenBeforeFailure, firstFailure, nextVersion, e]
      · rcases ha : TransitionRs.apply c t with err2 | nxt
        · simp [bumpWrites, writtenBeforeFailure, firstFailure, nextVersion, e, ha]
        · simp [bumpWrites, writtenBeforeFailure, firstFailure, nextVersion,
            e, ha, ih]
  · induction pkgs with
    | nil => rfl
    | cons p rest ih =>
      rcases e : tryFromVersion p.version with err | c
      · simp [bumpWrites, e]
      · rcases ha : TransitionRs.apply c t with err2 | nxt
        · simp [bumpWrites, e, ha]
        · simp [bumpWrites, e, ha, ih]

/-- Claim C3: from a prerelease-state version storing `ident.iteration`, a
`TransitionPrerelease` request succeeds exactly when the freshly constructed
prerelease `{pre_ident, 1}` compares strictly greater than the current one
under the semver precedence comparator on the serialized forms, in which case
the result carries exactly that prerelease; otherwise it fails with the
non-advancing-prerelease error.  The `semverPreNewOk` hypotheses restrict
the statement to the inputs on which the Rust `to_semver` calls do not panic
(an invalid target identifier such as `"007"`, `""` or `"zeta!"` makes
`transition_prerelease` panic in its `expect`, not return an error). -/
theorem claim3_transition_prerelease :
    ∀ (v : SemanticVersion) (p : Prerelease) (pre : Str),
      v.pre = p.toSemverStr → '.' ∉ p.ident → p.iteration < u64Size →
      semverPreNewOk (Prerelease.toSemverStr ⟨pre, 1⟩) = true →
      semverPreNewOk p.toSemverStr = true →
      (if semverPreCompare (Prerelease.toSemverStr ⟨pre, 1⟩) p.toSemverStr = .gt
       then TransitionFsm.apply v (.transitionPrerelease pre none) =
         .ok ⟨v.major, v.minor, v.patch, Prerelease.toSemverStr ⟨pre, 1⟩, []⟩
       else TransitionFsm.apply v (.transitionPrerelease pre none) =
         .error "New prerelease must be further than old prerelease.") := by
  intro v p pre hpre hdot hit _hnewOk _holdOk
  have hne : v.pre ≠ [] := by
    rw [hpre]
    unfold Prerelease.toSemverStr
    simp
  have hF : v.pre.isEmpty = false := by
    cases hv : v.pre
    · exact absurd hv hne
    · rfl
  have hstate : v.state = State.prerelease := by
    unfold Version.state Version.is_prerelease
    rw [hF]
    rfl
  have hopt : v.prereleaseOpt = .ok (some p) := by
    unfold Version.prereleaseOpt
    rw [if_neg (by simp [hF]), hpre, parse_toSemverStr hdot hit]
  by_cases hc :
      semverPreCompare (Prerelease.toSemverStr ⟨pre, 1⟩) p.toSemverStr = .gt
  · rw [if_pos hc]
    have hgt :
        semverPreCompare (Prerelease.toSemverStr ⟨pre, 1⟩)
          (Prerelease.toSemverStr ⟨p.ident, p.iteration⟩) = .gt := hc
    simp [TransitionFsm.apply, hstate, TransitionInput.kind, validate,
      TransitionFsm.apply_unchecked, TransitionFsm.transition_prerelease, hopt,
      Bind.bind, Except.bind, hc, Version.with_prerelease, Version.with_build]
  · rw [if_neg hc]
    simp [TransitionFsm.apply, hstate, TransitionInput.kind, validate,
      TransitionFsm.apply_unchecked, TransitionFsm.transition_prerelease, hopt,
      Bind.bind, Except.bind, hc]

/-- Claim C3 witness: `1.2.3-alpha.3` with target `beta` yields
`1.2.3-beta.1`; `1.2.3-beta.2` with target `beta` fails. -/
theorem claim3_transition_prerelease_witness :
    TransitionFsm.apply ⟨1, 2, 3, "alpha.3".data, []⟩
        (.transitionPrerelease "beta".data none) =
      .ok ⟨1, 2, 3, "beta.1".data, []⟩ ∧
    TransitionFsm.apply ⟨1, 2, 3, "beta.2".data, []⟩
        (.transitionPrerelease "beta".data none) =
      .error "New prerelease must be further than old prerelease." := by
  constructor
  · have h := claim3_transition_prerelease ⟨1, 2, 3, "alpha.3".data, []⟩
      ⟨"alpha".data, 3⟩ "beta".data (by decide) (by decide) (by decide)
      (by decide) (by decide)
    rw [if_pos (by decide)] at h
    have hs : Prerelease.toSemverStr ⟨"beta".data, 1⟩ = "beta.1".data := by decide
    rw [hs] at h
    exact h
  · have h := claim3_transition_prerelease ⟨1, 2, 3, "beta.2".data, []⟩
      ⟨"beta".data, 2⟩ "beta".data (by decide) (by decide) (by decide)
      (by decide) (by decide)
    rw [if_neg (by decide)] at h
    exact h

instance (v : Version) : Decidable (WfVersion v) := by
  unfold WfVersion
  exact inferInstance

theorem parseVersion_render (ma mi pa : Nat) (pr bu : Str)
    (hM : ma < u64Size) (hm : mi < u64Size) (hp : pa < u64Size)
    (hpre : pr = [] ∨ (splitCh '.' pr).all validPreIdent = true)
    (hbuild : bu = [] ∨ (splitCh '.' bu).all validBuildIdent = true)
    (hplus_pre : '+' ∉ pr) :
    parseVersion (Version.render ⟨ma, mi, pa, pr, bu⟩) = .ok ⟨ma, mi, pa, pr, bu⟩ := by
  have hdA : '.' ∉ natToDigits ma :=
    fun h => absurd (natToDigits_all_isDigit _ _ h) (by decide)
  have hdB : '.' ∉ natToDigits mi :=
    fun h => absurd (natToDigits_all_isDigit _ _ h) (by decide)
  have hdC : '.' ∉ natToDigits pa :=
    fun h => absurd (natToDigits_all_isDigit _ _ h) (by decide)
  have hsplitCore :
      splitCh '.' (natToDigits ma ++ '.' :: (natToDigits mi ++ '.' :: natToDigits pa))
        = [natToDigits ma, natToDigits mi, natToDigits pa] := by
    rw [splitCh_append _ hdA, splitCh_append _ hdB, splitCh_not_mem hdC]
  have hmap :
      [natToDigits ma, natToDigits mi, natToDigits pa].map parseNumericComponent
        = [some ma, some mi, some pa] := by
    simp [parseNumericComponent_natToDigits hM, parseNumericComponent_natToDigits hm,
      parseNumericComponent_natToDigits hp]
  have hcore3 :
      ∀ x ∈ natToDigits ma ++ '.' :: (natToDigits mi ++ '.' :: natToDigits pa),
        x.isDigit = true ∨ x = '.' := by
    intro x hx
    simp only [List.mem_append, List.mem_cons] at hx
    rcases hx with h | h | h | h | h
    · exact Or.inl (natToDigits_all_isDigit _ _ h)
    · exact Or.inr h
    · exact Or.inl (natToDigits_all_isDigit _ _ h)
    · exact Or.inr h
    · exact Or.inl (natToDigits_all_isDigit _ _ h)
  have hplus_core :
      '+' ∉ natToDigits ma ++ '.' :: (natToDigits mi ++ '.' :: natToDigits pa) :=
    fun h => by rcases hcore3 _ h with h' | h' <;> exact absurd h' (by decide)
  have hdash_core :
      '-' ∉ natToDigits ma ++ '.' :: (natToDigits mi ++ '.' :: natToDigits pa) :=
    fun h => by rcases hcore3 _ h with h' | h' <;> exact absurd h' (by decide)
  rcases hpre with hpr0 | hprV
  · rcases hbuild with hbu0 | hbuV
    · -- no prerelease, no build
      subst hpr0; subst hbu0
      have hrender : Version.render ⟨ma, mi, pa, [], []⟩
          = natToDigits ma ++ '.' :: (natToDigits mi ++ '.' :: natToDigits pa) := by
        simp [Version.render]
      have h1 := splitFirst_not_mem hplus_core
      have h2 := splitFirst_not_mem hdash_core
      rw [hrender]
      simp [parseVersion, h1, h2, hsplitCore, hmap]
    · -- no prerelease, build present
      subst hpr0
      have hbune : bu ≠ [] := by
        intro h0; subst h0; simp [splitCh, validBuildIdent] at hbuV
      have hbuE : bu.isEmpty = false := by
        cases bu
        · exact absurd rfl hbune
        · rfl
      have hs :
          (natToDigits ma ++ '.' :: (natToDigits mi ++ '.' :: natToDigits pa))
              ++ '+' :: bu
            = natToDigits ma
              ++ '.' :: (natToDigits mi ++ '.' :: (natToDigits pa ++ '+' :: bu)) := by
        simp
      have hrender : Version.render ⟨ma, mi, pa, [], bu⟩
          = natToDigits ma
            ++ '.' :: (natToDigits mi ++ '.' :: (natToDigits pa ++ '+' :: bu)) := by
        simp [Version.render, hbuE]
      have h1 : splitFirst '+'
          (natToDigits ma
            ++ '.' :: (natToDigits mi ++ '.' :: (natToDigits pa ++ '+' :: bu)))
          = (natToDigits ma ++ '.' :: (natToDigits mi ++ '.' :: natToDigits pa),
             some bu) := by
        rw [← hs]
        exact splitFirst_append bu hplus_core
      have h2 := splitFirst_not_mem hdash_core
      rw [hrender]
      simp [parseVersion, h1, h2, hsplitCore, hmap, hbuV]
  · have hprne : pr ≠ [] := by
      intro h0; subst h0; simp [splitCh, validPreIdent] at hprV
    have hprE : pr.isEmpty = false := by
      cases pr
      · exact absurd rfl hprne
      · rfl
    have hplusCP :
        '+' ∉ (natToDigits ma ++ '.' :: (natToDigits mi ++ '.' :: natToDigits pa))
          ++ '-' :: pr := by
      intro h
      rcases List.mem_append.mp h with h | h
      · exact hplus_core h
      · rcases List.mem_cons.mp h with h | h
        · exact absurd h (by decide)
        · exact hplus_pre h
    have hs2 :
        (natToDigits ma ++ '.' :: (natToDigits mi ++ '.' :: natToDigits pa))
            ++ '-' :: pr
          = natToDigits ma
            ++ '.' :: (natToDigits mi ++ '.' :: (natToDigits pa ++ '-' :: pr)) := by
      simp
    rcases hbuild with hbu0 | hbuV
    · -- prerelease present, no build
      subst hbu0
      have hrender : Version.render ⟨ma, mi, pa, pr, []⟩
          = natToDigits ma
            ++ '.' :: (natToDigits mi ++ '.' :: (natToDigits pa ++ '-' :: pr)) := by
        simp [Version.render, hprE]
      have h1 : splitFirst '+'
          (natToDigits ma
            ++ '.' :: (natToDigits mi ++ '.' :: (natToDigits pa ++ '-' :: pr)))
          = (natToDigits ma
              ++ '.' :: (natToDigits mi ++ '.' :: (natToDigits pa ++ '-' :: pr)),
             none) := by
        rw [← hs2]
        exact splitFirst_not_mem hplusCP
      have h2 : splitFirst '-'
          (natToDigits ma
            ++ '.' :: (natToDigits mi ++ '.' :: (natToDigits pa ++ '-' :: pr)))
          = (natToDigits ma ++ '.' :: (natToDigits mi ++ '.' :: natToDigits pa),
             some pr) := by
        rw [← hs2]
        exact splitFirst_append pr hdash_core
      rw [hrender]
      simp [parseVersion, h1, h2, hsplitCore, hmap, hprV]
    · -- prerelease and build present
      have hbune : bu ≠ [] := by
        intro h0; subst h0; simp [splitCh, validBuildIdent] at hbuV
      have hbuE : bu.isEmpty = false := by
        cases bu
        · exact absurd rfl hbune
        · rfl
      have hs4 :
          ((natToDigits ma ++ '.' :: (natToDigits mi ++ '.' :: natToDigits pa))
              ++ '-' :: pr) ++ '+' :: bu
            = natToDigits ma
              ++ '.' :: (natToDigits mi
                ++ '.' :: (natToDigits pa ++ '-' :: (pr ++ '+' :: bu))) := by
        simp
      have hrender : Version.render ⟨ma, mi, pa, pr, bu⟩
          = natToDigits ma
            ++ '.' :: (natToDigits mi
              ++ '.' :: (natToDigits pa ++ '-' :: (pr ++ '+' :: bu))) := by
        simp [Version.render, hprE, hbuE]
      have h1 : splitFirst '+'
          (natToDigits ma
            ++ '.' :: (natToDigits mi
              ++ '.' :: (natToDigits pa ++ '-' :: (pr ++ '+' :: bu))))
          = (natToDigits ma
              ++ '.' :: (natToDigits mi ++ '.' :: (natToDigits pa ++ '-' :: pr)),
             some bu) := by
        rw [← hs4, ← hs2]
        exact splitFirst_append bu hplusCP
      have h2 : splitFirst '-'
          (natToDigits ma
            ++ '.' :: (natToDigits mi ++ '.' :: (natToDigits pa ++ '-' :: pr)))
          = (natToDigits ma ++ '.' :: (natToDigits mi ++ '.' :: natToDigits pa),
             some pr) := by
        rw [← hs2]
        exact splitFirst_append pr hdash_core
      rw [hrender]
      simp [parseVersion, h1, h2, hsplitCore, hmap, hprV, hbuV]

/-- Claim C5: every canonical version string (the rendering of a well-formed
version, whose non-empty prerelease has the validated `ident.iteration` shape)
parses back into exactly the same value: parse then render is the identity on
canonical strings. -/
theorem claim5_roundtrip :
    ∀ v : Version, WfVersion v → parseSemanticVersion v.render = .ok v := by
  intro v hwf
  rcases v with ⟨ma, mi, pa, pr, bu⟩
  obtain ⟨hM, hm, hp, hpre, hbuild⟩ := hwf
  have hpre_chars : ∀ x ∈ pr, x = '.' ∨ isAlnumHyphen x = true := by
    rcases hpre with h | ⟨hv, _⟩
    · subst h; intro x hx; simp at hx
    · exact mem_of_components hv _ (fun comp hcomp x hx => by
        have hall : comp.all isAlnumHyphen = true := by
          unfold validPreIdent at hcomp
          simp only [Bool.and_eq_true] at hcomp
          exact hcomp.1.2
        exact List.all_eq_true.mp hall x hx)
  have hplus_pre : '+' ∉ pr := fun hmem => by
    rcases hpre_chars _ hmem with h' | h' <;> exact absurd h' (by decide)
  have hpv := parseVersion_render ma mi pa pr bu hM hm hp
    (hpre.imp id And.left) hbuild hplus_pre
  unfold parseSemanticVersion
  rw [hpv]
  rcases hpre with h | ⟨hv, hok⟩
  · subst h
    simp [tryFromVersion]
  · rcases e : Prerelease.parse pr with err | pp
    · rw [e] at hok; simp at hok
    · have hprne : pr ≠ [] := by
        intro h0; subst h0; simp [splitCh, validPreIdent] at hv
      have hprE : pr.isEmpty = false := by
        cases pr
        · exact absurd rfl hprne
        · rfl
      simp [tryFromVersion, hprE, e]

/-- Claim C5 witness: the canonical string of `1.2.3-alpha.7+xyz` round-trips
to exactly itself. -/
theorem claim5_roundtrip_witness :
    WfVersion ⟨1, 2, 3, "alpha.7".data, "xyz".data⟩ ∧
    parseSemanticVersion (Version.render ⟨1, 2, 3, "alpha.7".data, "xyz".data⟩) =
      .ok ⟨1, 2, 3, "alpha.7".data, "xyz".data⟩ :=
  ⟨by decide, claim5_roundtrip ⟨1, 2, 3, "alpha.7".data, "xyz".data⟩ (by decide)⟩

end Goosectl
